import Mathlib

/-!
Verification of the XBRL extraction core (`src/parser.py`) of `csrak/xblr_parser`.

The Python code operates on the element tree produced by `lxml.etree.parse`.
We embed that tree shallowly: a node carries a tag (a plain string for real
elements, or an opaque non-string object for comments / processing
instructions, mirroring lxml's cython function tags), an attribute list, an
optional text payload and a list of children.  Python dictionaries are
modelled as insertion-ordered association lists with Python's update
semantics, and Python string operations (`strip`, `lower`, `in`, `split`)
are re-implemented over `List Char`.
-/

set_option maxRecDepth 4000

/-- Python `c in s` restricted to a single character, used for `'}' in tag`. -/
def charIn (c : Char) (s : String) : Bool :=
  s.data.any (fun x => decide (x = c))

/-- Everything after the first occurrence of `c`; models `s.split(c, 1)[1]`. -/
def splitAfterChar (c : Char) : List Char → List Char
  | [] => []
  | x :: xs => if x = c then xs else splitAfterChar c xs

/-- Everything before the first occurrence of `c`; models `s.split(c, 1)[0]`. -/
def splitBeforeChar (c : Char) : List Char → List Char
  | [] => []
  | x :: xs => if x = c then [] else x :: splitBeforeChar c xs

/-- String form of `splitAfterChar`. -/
def strAfterFirst (c : Char) (s : String) : String :=
  String.mk (splitAfterChar c s.data)

/-- String form of `splitBeforeChar`. -/
def strBeforeFirst (c : Char) (s : String) : String :=
  String.mk (splitBeforeChar c s.data)

/-- Python `s.strip('\x7b')`: remove all leading and trailing `'\x7b'` characters. -/
def stripCurly (s : String) : String :=
  String.mk (((s.data.dropWhile (fun x => decide (x = '\x7b'))).reverse.dropWhile
    (fun x => decide (x = '\x7b'))).reverse)

/-- Python `s.strip()`: remove leading and trailing whitespace. -/
def pyStrip (s : String) : String :=
  String.mk (((s.data.dropWhile Char.isWhitespace).reverse.dropWhile
    Char.isWhitespace).reverse)

/-- Python `s.lower()` (ASCII case folding, as used on file names). -/
def strLower (s : String) : String :=
  String.mk (s.data.map Char.toLower)

/-- Helper for Python substring containment `pat in s`. -/
def subInAux (pat : List Char) : List Char → Bool
  | [] => pat.isEmpty
  | c :: cs => pat.isPrefixOf (c :: cs) || subInAux pat cs

/-- Python substring containment `pat in s`. -/
def subIn (pat s : String) : Bool :=
  subInAux pat.data s.data

/-- Python `s.endswith(suf)` / shell glob `*suf`. -/
def strEndsWith (s suf : String) : Bool :=
  suf.data.isSuffixOf s.data

/-- Tags of lxml tree nodes: genuine elements carry a string tag, while
comments and processing instructions carry a non-string object whose `str()`
form is recorded (for lxml these read `<cyfunction Comment ...>` etc.). -/
inductive XTag where
  | str (s : String)
  | other (reprStr : String)
deriving DecidableEq, Repr

/-- String form of the non-string-tag check in `get_local_name` (`parser.py`
lines 45-48): the `str()` of the tag marks a special node. -/
def reprIsSpecial (r : String) : Bool :=
  subIn "<cyfunction" r || subIn "<cython_function_or_method" r

/-- Local name of a namespaced tag string; `parser.py` line 41:
`tag.split('\x7d', 1)[1] if '\x7d' in tag else tag`. -/
def stripNs (s : String) : String :=
  if charIn '\x7d' s then strAfterFirst '\x7d' s else s

/-- Embedding of `get_local_name` (`parser.py` lines 29-49).  A string tag is
split on the namespace delimiter; a non-string tag yields `none` (Python
`None`) when its `str()` form marks a special node, and otherwise the `str()`
form itself. -/
def get_local_name : XTag → Option String
  | XTag.str s => some (stripNs s)
  | XTag.other r => if reprIsSpecial r then none else some r

/-- A node of the parsed lxml tree: tag, attributes (in document order),
optional text, children (in document order). -/
inductive XmlNode where
  | node (tag : XTag) (attrs : List (String × String)) (text : Option String)
      (children : List XmlNode)

/-- Tag of a node. -/
def XmlNode.tag : XmlNode → XTag
  | XmlNode.node t _ _ _ => t

/-- Attribute list of a node. -/
def XmlNode.attrs : XmlNode → List (String × String)
  | XmlNode.node _ a _ _ => a

/-- Text of a node (`None` when absent). -/
def XmlNode.text : XmlNode → Option String
  | XmlNode.node _ _ s _ => s

/-- Children of a node. -/
def XmlNode.children : XmlNode → List XmlNode
  | XmlNode.node _ _ _ c => c

/-- lxml `elem.get(key)`: first attribute with that name, else `None`. -/
def XmlNode.get (e : XmlNode) (key : String) : Option String :=
  (e.attrs.find? (fun p => decide (p.1 = key))).map Prod.snd

mutual

/-- lxml `root.iter()`: the node itself followed by all descendants, in
document (preorder) order. -/
def XmlNode.iter : XmlNode → List XmlNode
  | XmlNode.node t a s c => XmlNode.node t a s c :: iterChildren c

/-- Concatenated `iter` of a list of sibling nodes. -/
def iterChildren : List XmlNode → List XmlNode
  | [] => []
  | x :: xs => x.iter ++ iterChildren xs

end

/-- Python `d[k] = v` on an insertion-ordered dictionary: an existing key is
updated in place, a new key is appended. -/
def dictInsert {α β : Type} [DecidableEq α] (d : List (α × β)) (k : α) (v : β) :
    List (α × β) :=
  if d.any (fun p => decide (p.1 = k)) then
    d.map (fun p => if p.1 = k then (k, v) else p)
  else d ++ [(k, v)]

/-- Python `d.get(k)` / `k in d`: value at the first (hence unique) binding. -/
def dictLookup {α β : Type} [DecidableEq α] (d : List (α × β)) (k : α) :
    Option β :=
  (d.find? (fun p => decide (p.1 = k))).map Prod.snd

/-- Python `x.strip() if x else None`: `None` and the empty string are falsy. -/
def pyStripIfTruthy : Option String → Option String
  | none => none
  | some s => if s = "" then none else some (pyStrip s)

/-- Python `n.text.strip() if n is not None and n.text else None`. -/
def pyTextOfOpt : Option XmlNode → Option String
  | none => none
  | some n => pyStripIfTruthy n.text

/-- The context record built by the context loop of `parse_xbrl_file`
(`parser.py` lines 92-166).  The Python dictionary gains its `instant`,
`start_date` and `end_date` keys only on some paths; an outer `Option` layer
records key presence, the inner one records a possibly-`None` value. -/
structure ContextData where
  period_type : Option String
  instant : Option (Option String)
  start_date : Option (Option String)
  end_date : Option (Option String)
  dimensions : List (String × String)
deriving DecidableEq, Repr

/-- Local name of a node's tag after the `isinstance(elem.tag, str)` guard:
`none` exactly when the tag is not a string. -/
def localNameOfNode (n : XmlNode) : Option String :=
  match n.tag with
  | XTag.str t => get_local_name (XTag.str t)
  | XTag.other _ => none

/-- First direct child whose (string) tag has the given local name; models the
`for child in elem: ... break` searches of `parser.py`. -/
def firstChildNamed (e : XmlNode) (name : String) : Option XmlNode :=
  e.children.find? (fun c => decide (localNameOfNode c = some name))

/-- Last direct child whose (string) tag has the given local name; models the
break-less assignment loop for `startDate` / `endDate` (`parser.py` lines
126-133), where a later match overwrites an earlier one. -/
def lastChildNamed (e : XmlNode) (name : String) : Option XmlNode :=
  (e.children.filter (fun c => decide (localNameOfNode c = some name))).getLast?

/-- Segment selection of `parser.py` lines 141-153: walk the context's
children; for every `entity` child take its first `segment` child (inner
`break`), overwriting any previously found segment (the outer loop has no
`break`). -/
def segmentOf (e : XmlNode) : Option XmlNode :=
  e.children.foldl
    (fun seg c =>
      if localNameOfNode c = some "entity" then
        match firstChildNamed c "segment" with
        | some s => some s
        | none => seg
      else seg)
    none

/-- Dimension entry contributed by one direct child of the segment
(`parser.py` lines 156-166): requires a string tag whose local name contains
`explicitMember`, a truthy `dimension` attribute (resolved to its local name;
the attribute is a Python `str`, so `get_local_name` takes its string branch)
and a truthy stripped text. -/
def dimEntryOf (dim : XmlNode) : Option (String × String) :=
  match dim.tag with
  | XTag.other _ => none
  | XTag.str t =>
    if subIn "explicitMember" (stripNs t) then
      match dim.get "dimension" with
      | none => none
      | some d =>
        if d = "" then none
        else
          match pyStripIfTruthy dim.text with
          | none => none
          | some mv => if mv = "" then none else some (stripNs d, mv)
    else none

/-- One step of the dimensions loop (`parser.py` lines 156-166): a child
contributing a dimension entry updates the dictionary, others leave it. -/
def dimStep (d : List (String × String)) (c : XmlNode) : List (String × String) :=
  match dimEntryOf c with
  | some kv => dictInsert d kv.1 kv.2
  | none => d

/-- The dimensions dictionary accumulated over the segment's direct children
(`parser.py` lines 155-166), with Python dictionary update semantics. -/
def dimsOfSeg (seg : XmlNode) : List (String × String) :=
  seg.children.foldl dimStep []

/-- The `context_data` dictionary assembled for one `context` element
(`parser.py` lines 92-166). -/
def contextDataOf (e : XmlNode) : ContextData :=
  let base : ContextData :=
    { period_type := none, instant := none, start_date := none,
      end_date := none, dimensions := [] }
  let withPeriod :=
    match firstChildNamed e "period" with
    | none => base
    | some period =>
      match firstChildNamed period "instant" with
      | some inst =>
        { base with period_type := some "instant",
                    instant := some (pyStripIfTruthy inst.text) }
      | none =>
        { base with period_type := some "duration",
                    start_date := some (pyTextOfOpt (lastChildNamed period "startDate")),
                    end_date := some (pyTextOfOpt (lastChildNamed period "endDate")) }
  let dims :=
    match segmentOf e with
    | none => []
    | some seg => dimsOfSeg seg
  { withPeriod with dimensions := dims }

/-- Contribution of one iterated node to the contexts dictionary
(`parser.py` lines 77-89): a string-tagged `context` element with a truthy
`id` attribute yields an entry, everything else is skipped. -/
def contextEntryOf (e : XmlNode) : Option (String × ContextData) :=
  match e.tag with
  | XTag.other _ => none
  | XTag.str t =>
    if get_local_name (XTag.str t) = some "context" then
      match e.get "id" with
      | none => none
      | some cid => if cid = "" then none else some (cid, contextDataOf e)
    else none

/-- One step of the context loop (`parser.py` lines 77-169): a node
contributing a context entry updates the dictionary, others leave it. -/
def ctxStep (ctxs : List (String × ContextData)) (e : XmlNode) :
    List (String × ContextData) :=
  match contextEntryOf e with
  | some kv => dictInsert ctxs kv.1 kv.2
  | none => ctxs

/-- The contexts dictionary of `parse_xbrl_file` (`parser.py` lines 74-169):
fold over all iterated nodes, inserting each context entry with Python
dictionary semantics (a duplicate `id` overwrites). -/
def extractContexts (root : XmlNode) : List (String × ContextData) :=
  root.iter.foldl ctxStep []

/-- The context entries in document order, before dictionary collapsing. -/
def contextEntries (root : XmlNode) : List (String × ContextData) :=
  root.iter.filterMap contextEntryOf

/-- A fact record as assembled at `parser.py` lines 228-245.  The Python
dictionary carries a `date` key only for instant contexts and
`start_date` / `end_date` keys otherwise; the outer `Option` layer on those
fields records key presence. -/
structure FactRec where
  concept : String
  prefixed_concept : String
  value : String
  unit : Option String
  context_id : String
  period_type : Option String
  date : Option (Option String)
  start_date : Option (Option String)
  end_date : Option (Option String)
  dimensions : List (String × String)
deriving DecidableEq, Repr

/-- Structural element names skipped by the fact loop (`parser.py` line 178). -/
def skip_names : List String :=
  ["context", "unit", "schemaRef", "roleRef", "arcroleRef"]

/-- The document's namespace map `root.nsmap`: prefix (Python `None` for the
default namespace) paired with namespace URI, in declaration order. -/
abbrev NsMap := List (Option String × String)

/-- Local name and prefixed name of a fact element's tag (`parser.py` lines
192-210): split on the first namespace delimiter, strip surrounding braces
from the URI, look up the first prefix bound to that URI in `root.nsmap`, and
fall back to the bare local name when the found prefix is falsy. -/
def resolvePrefixed (nsmap : NsMap) (tag : String) : String × String :=
  if charIn '\x7d' tag then
    let ns := stripCurly (strBeforeFirst '\x7d' tag)
    let ln := strAfterFirst '\x7d' tag
    match (nsmap.find? (fun pu => decide (pu.2 = ns))).map Prod.fst with
    | some (some p) => if p = "" then (ln, ln) else (ln, p ++ ":" ++ ln)
    | some none => (ln, ln)
    | none => (ln, ln)
  else (tag, tag)

/-- The fact dictionary assembled once all gates have passed (`parser.py`
lines 224-245). -/
def buildFact (nsmap : NsMap) (cref : String) (cd : ContextData) (e : XmlNode)
    (tag v : String) : FactRec :=
  { concept := (resolvePrefixed nsmap tag).1,
    prefixed_concept := (resolvePrefixed nsmap tag).2,
    value := pyStrip v,
    unit := e.get "unitRef",
    context_id := cref,
    period_type := cd.period_type,
    date := if cd.period_type = some "instant" then some cd.instant.join else none,
    start_date := if cd.period_type = some "instant" then none else some cd.start_date.join,
    end_date := if cd.period_type = some "instant" then none else some cd.end_date.join,
    dimensions := cd.dimensions }

/-- Contribution of one iterated node to the fact list (`parser.py` lines
181-247): requires a string tag, a truthy `contextRef` naming a known
context, a non-structural local name and a non-`None` text. -/
def factOfElem (nsmap : NsMap) (ctxs : List (String × ContextData))
    (e : XmlNode) : Option FactRec :=
  match e.tag with
  | XTag.other _ => none
  | XTag.str tag =>
    match e.get "contextRef" with
    | none => none
    | some cref =>
      if cref = "" then none
      else
        match dictLookup ctxs cref with
        | none => none
        | some cd =>
          if (resolvePrefixed nsmap tag).1 ∈ skip_names then none
          else
            match e.text with
            | none => none
            | some v => some (buildFact nsmap cref cd e tag v)

/-- A successfully parsed document: the tree root plus `root.nsmap`. -/
structure XmlDoc where
  root : XmlNode
  nsmap : NsMap

/-- Fact extraction for one successfully parsed document (`parser.py` lines
74-251): build the contexts dictionary, then emit facts for all iterated
nodes in document order. -/
def parseDoc (doc : XmlDoc) : List FactRec :=
  doc.root.iter.filterMap (factOfElem doc.nsmap (extractContexts doc.root))

/-- Embedding of `parse_xbrl_file` (`parser.py` lines 52-258).  The argument
is the outcome of `etree.parse`: `none` models a file on which parsing (or
any later step) raises, which the surrounding `try`/`except` turns into an
empty fact list. -/
def parse_xbrl_file : Option XmlDoc → List FactRec
  | none => []
  | some doc => parseDoc doc

/-- Glob `*.xbrl` applied to a base name (`parser.py` line 21). -/
def matchesXbrlGlob (name : String) : Bool :=
  strEndsWith name ".xbrl"

/-- Glob `*[0-9].xml` applied to a base name (`parser.py` line 22): the name
ends in `.xml` and the character before the extension is a digit. -/
def matchesNumXmlGlob (name : String) : Bool :=
  match name.data.reverse with
  | 'l' :: 'm' :: 'x' :: '.' :: d :: _ => d.isDigit
  | _ => false

/-- Exclusion rule of `parser.py` lines 25-26: the lower-cased base name
contains one of the linkbase markers. -/
def excludedName (name : String) : Bool :=
  ["_lab", "label", "dim_", "def"].any (fun x => subIn x (strLower name))

/-- Embedding of `find_xbrl_files` (`parser.py` lines 10-26) over the list of
base names in the directory: the `*.xbrl` matches followed by the
`*[0-9].xml` matches, with excluded names filtered out. -/
def find_xbrl_files (names : List String) : List String :=
  (names.filter matchesXbrlGlob ++ names.filter matchesNumXmlGlob).filter
    (fun n => !excludedName n)

/-- A directory: base names paired with the outcome of parsing each file
(`none` when `etree.parse` raises on it). -/
abbrev Directory := List (String × Option XmlDoc)

/-- Embedding of `XBRLParser.parse_directory` (`parser.py` lines 299-334):
discover files, parse each in discovery order and concatenate the facts. -/
def parse_directory (dir : Directory) : List FactRec :=
  (find_xbrl_files (dir.map Prod.fst)).foldl
    (fun acc name =>
      match dictLookup dir name with
      | some f => acc ++ parse_xbrl_file f
      | none => acc)
    []


/-- The instant element of the spec's end-to-end example context. -/
def exampleInstant : XmlNode :=
  XmlNode.node (XTag.str "\x7bhttp://www.xbrl.org/2003/instance\x7dinstant")
    [] (some "2023-12-31") []

/-- The period element of the spec's end-to-end example context. -/
def examplePeriod : XmlNode :=
  XmlNode.node (XTag.str "\x7bhttp://www.xbrl.org/2003/instance\x7dperiod")
    [] none [exampleInstant]

/-- The context element of the spec's end-to-end example. -/
def exampleContext : XmlNode :=
  XmlNode.node (XTag.str "\x7bhttp://www.xbrl.org/2003/instance\x7dcontext")
    [("id", "C1")] none [examplePeriod]

/-- The context data stored for the end-to-end example context. -/
def exampleContextData : ContextData :=
  { period_type := some "instant", instant := some (some "2023-12-31"),
    start_date := none, end_date := none, dimensions := [] }

/-- Concrete document of the spec's end-to-end example: one context `C1`
with instant period `2023-12-31`, and one `us-gaap:Assets` fact element with
`contextRef="C1"`, text `1000` and `unitRef="USD"`. -/
def exampleDoc : XmlDoc :=
  { root := XmlNode.node (XTag.str "\x7bhttp://www.xbrl.org/2003/instance\x7dxbrl") [] none
      [ exampleContext,
        XmlNode.node (XTag.str "\x7bhttp://fasb.org/us-gaap/2023\x7dAssets")
          [("contextRef", "C1"), ("unitRef", "USD")] (some "1000") [] ],
    nsmap := [(some "xbrli", "http://www.xbrl.org/2003/instance"),
              (some "us-gaap", "http://fasb.org/us-gaap/2023")] }

/-- The single fact extracted from `exampleDoc`. -/
def exampleFact : FactRec :=
  { concept := "Assets", prefixed_concept := "us-gaap:Assets", value := "1000",
    unit := some "USD", context_id := "C1", period_type := some "instant",
    date := some (some "2023-12-31"), start_date := none, end_date := none,
    dimensions := [] }

/-- Document with a context and a fact element whose text is a single blank:
the blank is truthy in Python, so the fact survives the text gate and its
stripped value is the empty string. -/
def blankValueDoc : XmlDoc :=
  { root := XmlNode.node (XTag.str "xbrl") [] none
      [ XmlNode.node (XTag.str "context") [("id", "C1")] none [],
        XmlNode.node (XTag.str "fact") [("contextRef", "C1")] (some " ") [] ],
    nsmap := [] }

/-- Document with two `context` elements sharing the id `C1` but holding
different instants, plus one fact referencing `C1`. -/
def dupContextDoc : XmlDoc :=
  { root := XmlNode.node (XTag.str "xbrl") [] none
      [ XmlNode.node (XTag.str "context") [("id", "C1")] none
          [ XmlNode.node (XTag.str "period") [] none
              [ XmlNode.node (XTag.str "instant") [] (some "2023-01-01") [] ] ],
        XmlNode.node (XTag.str "context") [("id", "C1")] none
          [ XmlNode.node (XTag.str "period") [] none
              [ XmlNode.node (XTag.str "instant") [] (some "2023-12-31") [] ] ],
        XmlNode.node (XTag.str "fact") [("contextRef", "C1")] (some "5") [] ],
    nsmap := [] }

/-- The context data of the earlier duplicate context in `dupContextDoc`. -/
def dupContextDataA : ContextData :=
  { period_type := some "instant", instant := some (some "2023-01-01"),
    start_date := none, end_date := none, dimensions := [] }

/-- The context data of the later duplicate context in `dupContextDoc`. -/
def dupContextDataB : ContextData :=
  { period_type := some "instant", instant := some (some "2023-12-31"),
    start_date := none, end_date := none, dimensions := [] }

/-- Document whose single context carries a segment with two
`explicitMember` children naming the same dimension `Dim` with member values
`M1` and then `M2`, plus one fact referencing the context. -/
def dupDimDoc : XmlDoc :=
  { root := XmlNode.node (XTag.str "xbrl") [] none
      [ XmlNode.node (XTag.str "context") [("id", "C1")] none
          [ XmlNode.node (XTag.str "entity") [] none
              [ XmlNode.node (XTag.str "segment") [] none
                  [ XmlNode.node (XTag.str "explicitMember")
                      [("dimension", "Dim")] (some "M1") [],
                    XmlNode.node (XTag.str "explicitMember")
                      [("dimension", "Dim")] (some "M2") [] ] ] ],
        XmlNode.node (XTag.str "fact") [("contextRef", "C1")] (some "7") [] ],
    nsmap := [] }

/-- The first `explicitMember` child of `dupDimDoc`'s segment. -/
def dupDimChildA : XmlNode :=
  XmlNode.node (XTag.str "explicitMember") [("dimension", "Dim")] (some "M1") []

/-- The segment element of `dupDimDoc`'s context. -/
def dupDimSegment : XmlNode :=
  XmlNode.node (XTag.str "segment") [] none [dupDimChildA,
    XmlNode.node (XTag.str "explicitMember") [("dimension", "Dim")] (some "M2") []]

/-- The context element of `dupDimDoc`. -/
def dupDimContext : XmlNode :=
  XmlNode.node (XTag.str "context") [("id", "C1")] none
    [ XmlNode.node (XTag.str "entity") [] none [dupDimSegment] ]

/-- The context data stored for `dupDimDoc`'s context: the later member wins. -/
def dupDimData : ContextData :=
  { period_type := none, instant := none, start_date := none, end_date := none,
    dimensions := [("Dim", "M2")] }

/-- Document whose context has no `period` child, plus one fact element
referencing it. -/
def noPeriodDoc : XmlDoc :=
  { root := XmlNode.node (XTag.str "xbrl") [] none
      [ XmlNode.node (XTag.str "context") [("id", "C1")] none [],
        XmlNode.node (XTag.str "fact") [("contextRef", "C1")] (some "9") [] ],
    nsmap := [] }

/-- The context data stored for `noPeriodDoc`'s context. -/
def noPeriodData : ContextData :=
  { period_type := none, instant := none, start_date := none, end_date := none,
    dimensions := [] }

/-- A dangling element: its `contextRef` names a context that no document in
scope defines. -/
def danglingElem : XmlNode :=
  XmlNode.node (XTag.str "fact") [("contextRef", "missing")] (some "3") []

/-- The single fact extracted from `dupContextDoc`: it copies the later
duplicate context's period data. -/
def dupContextFact : FactRec :=
  { concept := "fact", prefixed_concept := "fact", value := "5", unit := none,
    context_id := "C1", period_type := some "instant",
    date := some (some "2023-12-31"), start_date := none, end_date := none,
    dimensions := [] }

/-- The single fact extracted from `dupDimDoc`: its dimensions carry the
later member value for `Dim`. -/
def dupDimFact : FactRec :=
  { concept := "fact", prefixed_concept := "fact", value := "7", unit := none,
    context_id := "C1", period_type := none, date := none,
    start_date := some none, end_date := some none,
    dimensions := [("Dim", "M2")] }

/-- The single fact extracted from `noPeriodDoc`: emitted although its
context has no period, with null start and end dates and no date field. -/
def noPeriodFact : FactRec :=
  { concept := "fact", prefixed_concept := "fact", value := "9", unit := none,
    context_id := "C1", period_type := none, date := none,
    start_date := some none, end_date := some none, dimensions := [] }

/-- The context element of `noPeriodDoc`. -/
def noPeriodContext : XmlNode :=
  XmlNode.node (XTag.str "context") [("id", "C1")] none []

section DictLemmas

variable {α β : Type} [DecidableEq α]

/-- Lookup in the empty dictionary. -/
theorem dictLookup_nil (k : α) : dictLookup ([] : List (α × β)) k = none := rfl

/-- Lookup steps over a cons cell. -/
theorem dictLookup_cons (p : α × β) (m : List (α × β)) (k : α) :
    dictLookup (p :: m) k = if p.1 = k then some p.2 else dictLookup m k := by
  by_cases h : p.1 = k <;> simp [dictLookup, List.find?_cons, h]

/-- Appending a fresh binding: lookup finds it exactly at its key. -/
theorem dictLookup_append_single (m : List (α × β)) (a : α) (v : β) (k : α)
    (h : m.any (fun p => decide (p.1 = a)) = false) :
    dictLookup (m ++ [(a, v)]) k = if k = a then some v else dictLookup m k := by
  induction m with
  | nil =>
    rw [List.nil_append, dictLookup_cons]
    by_cases hk : k = a
    · subst hk; simp
    · rw [if_neg (fun hh : (a, v).1 = k => hk hh.symm), if_neg hk]
  | cons p m ih =>
    simp only [List.any_cons, Bool.or_eq_false_iff] at h
    rw [List.cons_append, dictLookup_cons, ih h.2, dictLookup_cons]
    by_cases hk : k = a
    · subst hk
      have hp : ¬ (p.1 = k) := by
        intro hh
        rw [hh] at h
        simp at h
      simp [hp]
    · by_cases hp : p.1 = k <;> simp [hp, hk]

/-- Updating key `a` in place does not affect other keys. -/
theorem dictLookup_map_update_ne (m : List (α × β)) (a : α) (v : β) (k : α)
    (h : k ≠ a) :
    dictLookup (m.map (fun p => if p.1 = a then (a, v) else p)) k =
      dictLookup m k := by
  induction m with
  | nil => rfl
  | cons p m ih =>
    simp only [List.map_cons]
    by_cases hp : p.1 = a
    · rw [if_pos hp, dictLookup_cons, dictLookup_cons]
      have h1 : ¬ ((a, v).1 = k) := fun hh => h hh.symm
      have h2 : ¬ (p.1 = k) := by rw [hp]; exact fun hh => h hh.symm
      rw [if_neg h1, if_neg h2, ih]
    · rw [if_neg hp, dictLookup_cons, dictLookup_cons, ih]

/-- Updating key `a` in place makes lookup at `a` return the new value,
provided the key was present. -/
theorem dictLookup_map_update_self (m : List (α × β)) (a : α) (v : β)
    (h : m.any (fun p => decide (p.1 = a)) = true) :
    dictLookup (m.map (fun p => if p.1 = a then (a, v) else p)) a = some v := by
  induction m with
  | nil => exact Bool.noConfusion h
  | cons p m ih =>
    simp only [List.map_cons]
    by_cases hp : p.1 = a
    · rw [if_pos hp, dictLookup_cons]
      simp
    · rw [if_neg hp, dictLookup_cons, if_neg hp]
      apply ih
      simpa [List.any_cons, hp] using h

/-- Lookup after a Python-style dictionary update. -/
theorem dictLookup_dictInsert (m : List (α × β)) (a : α) (v : β) (k : α) :
    dictLookup (dictInsert m a v) k = if k = a then some v else dictLookup m k := by
  unfold dictInsert
  by_cases hany : m.any (fun p => decide (p.1 = a)) = true
  · rw [if_pos hany]
    by_cases hk : k = a
    · subst hk
      rw [if_pos rfl, dictLookup_map_update_self m k v hany]
    · rw [if_neg hk, dictLookup_map_update_ne m a v k hk]
  · have hf : m.any (fun p => decide (p.1 = a)) = false :=
      Bool.eq_false_iff.mpr hany
    rw [if_neg hany, dictLookup_append_single m a v k hf]

/-- Every binding of an updated dictionary is an old binding or the update. -/
theorem mem_dictInsert {kv' : α × β} (m : List (α × β)) (a : α) (v : β)
    (h : kv' ∈ dictInsert m a v) : kv' ∈ m ∨ kv' = (a, v) := by
  unfold dictInsert at h
  by_cases hany : m.any (fun p => decide (p.1 = a)) = true
  · rw [if_pos hany] at h
    obtain ⟨p, hp, hpe⟩ := List.mem_map.mp h
    by_cases hpa : p.1 = a
    · right; rw [← hpe, if_pos hpa]
    · left; rw [← hpe, if_neg hpa]; exact hp
  · rw [if_neg hany] at h
    rcases List.mem_append.mp h with h1 | h2
    · left; exact h1
    · right; simpa using h2

/-- Lookup after folding a list of updates: the last entry for the key wins,
and absent that the initial dictionary decides. -/
theorem dictLookup_foldl_dictInsert (entries init : List (α × β)) (k : α) :
    dictLookup (entries.foldl (fun m kv => dictInsert m kv.1 kv.2) init) k =
      (match (entries.filter (fun kv => decide (kv.1 = k))).getLast? with
       | some kv => some kv.2
       | none => dictLookup init k) := by
  induction entries generalizing init with
  | nil => simp
  | cons kv l ih =>
    rw [List.foldl_cons, ih, List.filter_cons]
    by_cases hk : kv.1 = k
    · rw [if_pos (by simpa using hk)]
      cases hl : (l.filter (fun kv => decide (kv.1 = k))).getLast? with
      | some kv' =>
        obtain ⟨b, l', hbl⟩ : ∃ b l',
            l.filter (fun kv => decide (kv.1 = k)) = b :: l' := by
          cases hfl : l.filter (fun kv => decide (kv.1 = k)) with
          | nil => rw [hfl] at hl; simp at hl
          | cons b l' => exact ⟨b, l', rfl⟩
        rw [hbl, List.getLast?_cons_cons, ← hbl, hl]
      | none =>
        have hfl : l.filter (fun kv => decide (kv.1 = k)) = [] := by
          simpa using hl
        rw [hfl, dictLookup_dictInsert, if_pos hk.symm]
        rfl
    · rw [if_neg (by simpa using hk)]
      cases hl : (l.filter (fun kv => decide (kv.1 = k))).getLast? with
      | some kv' => rfl
      | none =>
        rw [dictLookup_dictInsert, if_neg (fun hh => hk hh.symm)]

end DictLemmas

/-- A fold of updates only ever contains bindings drawn from the initial
dictionary or from the folded entries. -/
theorem mem_foldl_dictInsert {α β : Type} [DecidableEq α] {kv : α × β}
    (entries init : List (α × β))
    (h : kv ∈ entries.foldl (fun m e => dictInsert m e.1 e.2) init) :
    kv ∈ init ∨ kv ∈ entries := by
  induction entries generalizing init with
  | nil => left; exact h
  | cons e l ih =>
    rw [List.foldl_cons] at h
    rcases ih _ h with h1 | h2
    · rcases mem_dictInsert _ _ _ h1 with hm | he
      · left; exact hm
      · right; rw [he]; exact List.mem_cons_self _ _
    · right; exact List.mem_cons_of_mem _ h2

/-- The context loop is the fold of the context entries. -/
theorem foldl_ctxStep_eq (l : List XmlNode) (init : List (String × ContextData)) :
    l.foldl ctxStep init =
      (l.filterMap contextEntryOf).foldl (fun m kv => dictInsert m kv.1 kv.2)
        init := by
  induction l generalizing init with
  | nil => rfl
  | cons e l ih =>
    rw [List.foldl_cons, List.filterMap_cons]
    cases h : contextEntryOf e with
    | none =>
      rw [show ctxStep init e = init by simp [ctxStep, h]]
      exact ih init
    | some kv =>
      rw [show ctxStep init e = dictInsert init kv.1 kv.2 by simp [ctxStep, h],
        List.foldl_cons]
      exact ih (dictInsert init kv.1 kv.2)

/-- The contexts dictionary is the fold of the context entries. -/
theorem extractContexts_eq (root : XmlNode) :
    extractContexts root =
      (contextEntries root).foldl (fun m kv => dictInsert m kv.1 kv.2) [] :=
  foldl_ctxStep_eq root.iter []

/-- Lookup in the contexts dictionary: the last context entry for the id, in
document order, decides (last-write-wins). -/
theorem dictLookup_extractContexts (root : XmlNode) (k : String) :
    dictLookup (extractContexts root) k =
      ((contextEntries root).filter (fun kv => decide (kv.1 = k))).getLast?.map
        Prod.snd := by
  rw [extractContexts_eq, dictLookup_foldl_dictInsert]
  cases ((contextEntries root).filter (fun kv => decide (kv.1 = k))).getLast? <;>
    rfl

/-- The dimensions loop is the fold of the dimension entries. -/
theorem foldl_dimStep_eq (l : List XmlNode) (init : List (String × String)) :
    l.foldl dimStep init =
      (l.filterMap dimEntryOf).foldl (fun m kv => dictInsert m kv.1 kv.2)
        init := by
  induction l generalizing init with
  | nil => rfl
  | cons e l ih =>
    rw [List.foldl_cons, List.filterMap_cons]
    cases h : dimEntryOf e with
    | none =>
      rw [show dimStep init e = init by simp [dimStep, h]]
      exact ih init
    | some kv =>
      rw [show dimStep init e = dictInsert init kv.1 kv.2 by simp [dimStep, h],
        List.foldl_cons]
      exact ih (dictInsert init kv.1 kv.2)

/-- The dimensions dictionary is the fold of the segment's dimension entries. -/
theorem dimsOfSeg_eq (seg : XmlNode) :
    dimsOfSeg seg =
      (seg.children.filterMap dimEntryOf).foldl
        (fun m kv => dictInsert m kv.1 kv.2) [] :=
  foldl_dimStep_eq seg.children []

/-- Lookup in the dimensions dictionary: the last dimension entry for the
name, in document order, decides (last-write-wins). -/
theorem dictLookup_dimsOfSeg (seg : XmlNode) (k : String) :
    dictLookup (dimsOfSeg seg) k =
      ((seg.children.filterMap dimEntryOf).filter
        (fun kv => decide (kv.1 = k))).getLast?.map Prod.snd := by
  rw [dimsOfSeg_eq, dictLookup_foldl_dictInsert]
  cases ((seg.children.filterMap dimEntryOf).filter
      (fun kv => decide (kv.1 = k))).getLast? <;>
    rfl

/-- Every recorded dimension pair stems from some segment child's entry. -/
theorem mem_dimsOfSeg (seg : XmlNode) (kv : String × String)
    (h : kv ∈ dimsOfSeg seg) : ∃ c ∈ seg.children, dimEntryOf c = some kv := by
  rw [dimsOfSeg_eq] at h
  rcases mem_foldl_dictInsert _ _ h with h1 | h2
  · cases h1
  · exact List.mem_filterMap.mp h2


/-- Inversion for a successful context entry: the node is a string-tagged
`context` element with a truthy `id`, and the data is `contextDataOf`. -/
theorem contextEntryOf_some {e : XmlNode} {i : String} {cd : ContextData}
    (h : contextEntryOf e = some (i, cd)) :
    ∃ t, e.tag = XTag.str t ∧ get_local_name (XTag.str t) = some "context" ∧
      e.get "id" = some i ∧ i ≠ "" ∧ cd = contextDataOf e := by
  unfold contextEntryOf at h
  split at h
  · exact Option.noConfusion h
  · rename_i t htag
    split at h
    · rename_i hln
      split at h
      · exact Option.noConfusion h
      · rename_i cid hid
        split at h
        · exact Option.noConfusion h
        · rename_i hcid
          injection h with h'
          rw [Prod.mk.injEq] at h'
          obtain ⟨h1, h2⟩ := h'
          subst h1
          exact ⟨t, htag, hln, hid, hcid, h2.symm⟩
    · exact Option.noConfusion h

/-- Inversion for an emitted fact: the element is string-tagged, its
`contextRef` is truthy and resolves in the contexts dictionary, its local
name is not structural, its text is present, and the fact is `buildFact`. -/
theorem factOfElem_some {nsmap : NsMap} {ctxs : List (String × ContextData)}
    {e : XmlNode} {f : FactRec} (h : factOfElem nsmap ctxs e = some f) :
    ∃ t cref cd v, e.tag = XTag.str t ∧ e.get "contextRef" = some cref ∧
      cref ≠ "" ∧ dictLookup ctxs cref = some cd ∧
      ¬ (resolvePrefixed nsmap t).1 ∈ skip_names ∧ e.text = some v ∧
      f = buildFact nsmap cref cd e t v := by
  unfold factOfElem at h
  split at h
  · exact Option.noConfusion h
  · rename_i t htag
    split at h
    · exact Option.noConfusion h
    · rename_i cref hcref
      split at h
      · exact Option.noConfusion h
      · rename_i hne
        split at h
        · exact Option.noConfusion h
        · rename_i cd hcd
          split at h
          · exact Option.noConfusion h
          · rename_i hskip
            split at h
            · exact Option.noConfusion h
            · rename_i v htext
              injection h with h'
              exact ⟨t, cref, cd, v, htag, hcref, hne, hcd, hskip, htext,
                h'.symm⟩

/-- An element with no text contributes no fact (`parser.py` lines 217-222). -/
theorem factOfElem_none_of_no_text (nsmap : NsMap)
    (ctxs : List (String × ContextData)) (e : XmlNode) (h : e.text = none) :
    factOfElem nsmap ctxs e = none := by
  unfold factOfElem
  split
  · rfl
  · rename_i t htag
    split
    · rfl
    · rename_i cref hcref
      split
      · rfl
      · split
        · rfl
        · split
          · rfl
          · rw [h]

/-- An element with no `contextRef` attribute contributes no fact
(`parser.py` lines 186-189). -/
theorem factOfElem_none_of_no_contextRef (nsmap : NsMap)
    (ctxs : List (String × ContextData)) (e : XmlNode)
    (h : e.get "contextRef" = none) : factOfElem nsmap ctxs e = none := by
  unfold factOfElem
  split
  · rfl
  · rw [h]

/-- An element whose `contextRef` is not a key of the contexts dictionary
contributes no fact (`parser.py` lines 186-189). -/
theorem factOfElem_none_of_dangling (nsmap : NsMap)
    (ctxs : List (String × ContextData)) (e : XmlNode) (cref : String)
    (h : e.get "contextRef" = some cref) (hd : dictLookup ctxs cref = none) :
    factOfElem nsmap ctxs e = none := by
  unfold factOfElem
  split
  · rfl
  · split
    · rfl
    · rename_i cref' hcref
      rw [h] at hcref
      injection hcref with hc
      subst hc
      by_cases hne : cref = ""
      · rw [if_pos hne]
      · rw [if_neg hne, hd]

/-- Membership in the extracted fact list, element-wise. -/
theorem mem_parseDoc {doc : XmlDoc} {f : FactRec} :
    f ∈ parseDoc doc ↔ ∃ e ∈ doc.root.iter,
      factOfElem doc.nsmap (extractContexts doc.root) e = some f :=
  List.mem_filterMap

/-- Every extracted fact copies its period and dimension fields from the
context stored under its `context_id`, and its value is a stripped string. -/
theorem parseDoc_fields {doc : XmlDoc} {f : FactRec} (h : f ∈ parseDoc doc) :
    ∃ cd, dictLookup (extractContexts doc.root) f.context_id = some cd ∧
      f.period_type = cd.period_type ∧ f.dimensions = cd.dimensions ∧
      f.date = (if cd.period_type = some "instant" then some cd.instant.join
        else none) ∧
      f.start_date = (if cd.period_type = some "instant" then none
        else some cd.start_date.join) ∧
      f.end_date = (if cd.period_type = some "instant" then none
        else some cd.end_date.join) ∧
      ∃ v, f.value = pyStrip v := by
  obtain ⟨e, _, hf⟩ := List.mem_filterMap.mp h
  obtain ⟨t, cref, cd, v, _, _, _, hcd, _, _, hfe⟩ := factOfElem_some hf
  subst hfe
  exact ⟨cd, hcd, rfl, rfl, rfl, rfl, rfl, v, rfl⟩

/-- Splitting after the first occurrence of `c` drops exactly the prefix up
to and including the first `c`. -/
theorem splitAfterChar_append (c : Char) (a b : List Char) (h : c ∉ a) :
    splitAfterChar c (a ++ c :: b) = b := by
  induction a with
  | nil => simp [splitAfterChar]
  | cons x xs ih =>
    rw [List.cons_append]
    have hx : ¬ (x = c) := fun hx => h (hx ▸ List.mem_cons_self x xs)
    simp only [splitAfterChar, if_neg hx]
    exact ih (fun hm => h (List.mem_cons_of_mem _ hm))

/-- A string containing `c` is detected by `charIn`. -/
theorem charIn_append_cons (c : Char) (a b : List Char) :
    charIn c (String.mk (a ++ c :: b)) = true := by
  simp only [charIn, List.any_eq_true]
  exact ⟨c, List.mem_append_right _ (List.mem_cons_self _ _), by simp⟩

/-- A string not containing `c` is rejected by `charIn`. -/
theorem charIn_eq_false (c : Char) (s : String) (h : c ∉ s.data) :
    charIn c s = false := by
  simp only [charIn, List.any_eq_false]
  intro x hx
  simp only [decide_eq_true_eq]
  exact fun hxc => h (hxc ▸ hx)

/-- Claim C1, counterexample: on `blankValueDoc` the fact element's text is a
single blank, which only trims to the empty string, yet a fact is emitted —
its `value` is `""`, refuting that every emitted value is non-empty and that
blank-texted elements are skipped. -/
theorem C1_counterexample : (parseDoc blankValueDoc).map FactRec.value = [""] := by
  decide

/-- Claim C1, amended: every emitted fact's `value` is the Python-strip of
some string (so never `None`, and always trimmed — but possibly empty), and
an element whose text is absent is skipped entirely and contributes no fact.
An element whose text merely trims to empty is still emitted. -/
theorem C1_value_stripped : ∀ (doc : XmlDoc),
    (∀ f ∈ parseDoc doc, ∃ v, f.value = pyStrip v) ∧
    (∀ (nsmap : NsMap) (ctxs : List (String × ContextData)) (e : XmlNode),
      e.text = none → factOfElem nsmap ctxs e = none) := by
  intro doc
  refine ⟨?_, ?_⟩
  · intro f hf
    obtain ⟨cd, _, _, _, _, _, _, hv⟩ := parseDoc_fields hf
    exact hv
  · intro nsmap ctxs e h
    exact factOfElem_none_of_no_text nsmap ctxs e h

/-- Claim C1, witness: the amended theorem applied to a concrete textless
element. -/
theorem C1_witness :
    factOfElem [] [] (XmlNode.node (XTag.str "x") [] none []) = none :=
  (C1_value_stripped exampleDoc).2 [] []
    (XmlNode.node (XTag.str "x") [] none []) rfl

/-- Claim C2, counterexample: on a tag with two delimiters the code returns
everything after the FIRST `\x7d`, not the last as claimed. -/
theorem C2_counterexample :
    get_local_name (XTag.str "\x7ba\x7db\x7dc") = some "b\x7dc" ∧
      get_local_name (XTag.str "\x7ba\x7db\x7dc") ≠ some "c" := by
  refine ⟨rfl, ?_⟩
  decide

/-- Claim C2, amended: for a string tag containing the delimiter,
`get_local_name` returns everything after the FIRST `\x7d`; a string tag
without the delimiter is returned unchanged; a non-string identifier yields
the unresolvable sentinel (`None`) when its `str()` form marks a special
node and the `str()` form itself otherwise; no input raises. -/
theorem C2_local_name :
    (∀ a b : String, '\x7d' ∉ a.data →
      get_local_name (XTag.str (a ++ "\x7d" ++ b)) = some b) ∧
    (∀ s : String, '\x7d' ∉ s.data →
      get_local_name (XTag.str s) = some s) ∧
    (∀ r : String, reprIsSpecial r = true →
      get_local_name (XTag.other r) = none) ∧
    (∀ r : String, reprIsSpecial r = false →
      get_local_name (XTag.other r) = some r) := by
  refine ⟨?_, ?_, ?_, ?_⟩
  · intro a b h
    have hdata : (a ++ "\x7d" ++ b).data = a.data ++ '\x7d' :: b.data := by
      simp [String.data_append]
    simp only [get_local_name, stripNs, strAfterFirst]
    rw [show a ++ "\x7d" ++ b = String.mk (a.data ++ '\x7d' :: b.data) from
      String.ext hdata]
    rw [charIn_append_cons, if_pos rfl]
    rw [show (String.mk (a.data ++ '\x7d' :: b.data)).data
        = a.data ++ '\x7d' :: b.data from rfl]
    rw [splitAfterChar_append _ _ _ h]
  · intro s h
    simp only [get_local_name, stripNs]
    rw [charIn_eq_false _ _ h]
    simp
  · intro r h
    simp [get_local_name, h]
  · intro r h
    simp [get_local_name, h]

/-- Claim C2, witness: the amended theorem applied to concrete tags of each
kind. -/
theorem C2_witness :
    get_local_name (XTag.str ("\x7bns" ++ "\x7d" ++ "Assets")) = some "Assets" ∧
    get_local_name (XTag.str "Assets") = some "Assets" ∧
    get_local_name (XTag.other "<cyfunction Comment at 0x01>") = none ∧
    get_local_name (XTag.other "oddity") = some "oddity" :=
  ⟨C2_local_name.1 "\x7bns" "Assets" (by decide),
   C2_local_name.2.1 "Assets" (by decide),
   C2_local_name.2.2.1 "<cyfunction Comment at 0x01>" (by decide),
   C2_local_name.2.2.2 "oddity" (by decide)⟩

/-- Claim C5: the spec's end-to-end example — one instant context `C1` and
one `us-gaap:Assets` element with text `1000` and unit `USD` — yields exactly
the single expected fact record. -/
theorem C5_example_document : parseDoc exampleDoc = [exampleFact] := by
  decide

/-- Claim C3: every emitted fact's `context_id` is a key of the document's
contexts dictionary, and an element whose `contextRef` is absent or names a
missing context is skipped (its fact contribution is `none`, no error). -/
theorem C3_context_id_resolves :
    ∀ (doc : XmlDoc) (nsmap : NsMap) (ctxs : List (String × ContextData))
      (e : XmlNode),
      (∀ f ∈ parseDoc doc,
        (dictLookup (extractContexts doc.root) f.context_id).isSome = true) ∧
      (e.get "contextRef" = none → factOfElem nsmap ctxs e = none) ∧
      (∀ cref, e.get "contextRef" = some cref → dictLookup ctxs cref = none →
        factOfElem nsmap ctxs e = none) := by
  intro doc nsmap ctxs e
  refine ⟨?_, ?_, ?_⟩
  · intro f hf
    obtain ⟨cd, hcd, _⟩ := parseDoc_fields hf
    rw [hcd]
    rfl
  · exact factOfElem_none_of_no_contextRef nsmap ctxs e
  · intro cref h hd
    exact factOfElem_none_of_dangling nsmap ctxs e cref h hd

/-- Claim C3, witness: the theorem applied to the example document's fact and
to a concrete dangling element. -/
theorem C3_witness :
    (dictLookup (extractContexts exampleDoc.root) "C1").isSome = true ∧
    factOfElem [] [] danglingElem = none :=
  ⟨(C3_context_id_resolves exampleDoc [] [] danglingElem).1 exampleFact
      (by decide),
   (C3_context_id_resolves exampleDoc [] [] danglingElem).2.2 "missing" rfl rfl⟩

/-- Claim C4: a file whose parse raises contributes an empty fact list, and a
directory holding one well-formed file and one failing file yields exactly
the well-formed file's facts, without raising. -/
theorem C4_partial_failure :
    ∀ (n1 n2 : String) (doc : XmlDoc),
      parse_xbrl_file none = [] ∧
      (matchesXbrlGlob n1 = true → matchesNumXmlGlob n1 = false →
       excludedName n1 = false → matchesXbrlGlob n2 = false →
       matchesNumXmlGlob n2 = true → excludedName n2 = false → n1 ≠ n2 →
       parse_directory [(n1, some doc), (n2, none)] = parseDoc doc) := by
  intro n1 n2 doc
  refine ⟨rfl, ?_⟩
  intro h1 h2 h3 h4 h5 h6 hne
  have hl1 : dictLookup [(n1, some doc), (n2, none)] n1 = some (some doc) := by
    rw [dictLookup_cons, if_pos rfl]
  have hl2 : dictLookup [(n1, some doc), (n2, none)] n2 = some none := by
    rw [dictLookup_cons, if_neg hne, dictLookup_cons, if_pos rfl]
  have hfind : find_xbrl_files [n1, n2] = [n1, n2] := by
    simp [find_xbrl_files, List.filter_cons, h1, h2, h3, h4, h5, h6]
  unfold parse_directory
  simp only [List.map_cons, List.map_nil]
  rw [hfind]
  simp only [List.foldl_cons, List.foldl_nil]
  rw [hl1, hl2]
  simp [parse_xbrl_file]

/-- Claim C4, witness: the theorem applied to a concrete directory holding
`report1.xbrl` (well-formed) and `data5.xml` (failing parse). -/
theorem C4_witness :
    parse_xbrl_file none = [] ∧
    parse_directory [("report1.xbrl", some exampleDoc), ("data5.xml", none)]
      = parseDoc exampleDoc :=
  ⟨(C4_partial_failure "report1.xbrl" "data5.xml" exampleDoc).1,
   (C4_partial_failure "report1.xbrl" "data5.xml" exampleDoc).2 (by decide)
     (by decide) (by decide) (by decide) (by decide) (by decide) (by decide)⟩

/-- Claim C7: file discovery keeps exactly the `*.xbrl` names and the
`*[0-9].xml` names whose lower-cased form contains no linkbase marker; on the
spec's four-file directory it returns precisely `report1.xbrl` and
`data5.xml`. -/
theorem C7_find_files :
    find_xbrl_files
        ["report1.xbrl", "report_label.xml", "taxonomy_def.xml", "data5.xml"]
      = ["report1.xbrl", "data5.xml"] ∧
    ∀ (names : List String) (n : String),
      n ∈ find_xbrl_files names ↔
        n ∈ names ∧ (matchesXbrlGlob n = true ∨ matchesNumXmlGlob n = true) ∧
          excludedName n = false := by
  refine ⟨by decide, ?_⟩
  intro names n
  unfold find_xbrl_files
  rw [List.mem_filter, List.mem_append, List.mem_filter, List.mem_filter]
  constructor
  · rintro ⟨h1 | h2, hex⟩
    · exact ⟨h1.1, Or.inl h1.2, by simpa using hex⟩
    · exact ⟨h2.1, Or.inr h2.2, by simpa using hex⟩
  · rintro ⟨hm, hg, hex⟩
    refine ⟨?_, by simpa using hex⟩
    rcases hg with hg | hg
    · exact Or.inl ⟨hm, hg⟩
    · exact Or.inr ⟨hm, hg⟩

/-- Inversion for a recorded dimension entry: the child is string-tagged with
local name containing `explicitMember`, carries a truthy `dimension`
attribute resolving to the entry's key, and its stripped text is the entry's
non-empty value. -/
theorem dimEntryOf_some {c : XmlNode} {kv : String × String}
    (h : dimEntryOf c = some kv) :
    ∃ t a, c.tag = XTag.str t ∧ subIn "explicitMember" (stripNs t) = true ∧
      c.get "dimension" = some a ∧ a ≠ "" ∧ kv.1 = stripNs a ∧
      pyStripIfTruthy c.text = some kv.2 ∧ kv.2 ≠ "" := by
  unfold dimEntryOf at h
  split at h
  · exact Option.noConfusion h
  · rename_i t htag
    split at h
    · rename_i hsub
      split at h
      · exact Option.noConfusion h
      · rename_i a ha
        split at h
        · exact Option.noConfusion h
        · rename_i hane
          split at h
          · exact Option.noConfusion h
          · rename_i mv hmv
            split at h
            · exact Option.noConfusion h
            · rename_i hmvne
              injection h with h'
              subst h'
              exact ⟨t, a, htag, by simpa using hsub, ha, hane, rfl, hmv,
                hmvne⟩
    · exact Option.noConfusion h

/-- A string-tagged element with a truthy resolving `contextRef`, a
non-structural local name and present text is emitted as a fact. -/
theorem factOfElem_emits {nsmap : NsMap} {ctxs : List (String × ContextData)}
    {e : XmlNode} {t cref v : String} {cd : ContextData}
    (htag : e.tag = XTag.str t) (hcref : e.get "contextRef" = some cref)
    (hne : cref ≠ "") (hcd : dictLookup ctxs cref = some cd)
    (hskip : ¬ (resolvePrefixed nsmap t).1 ∈ skip_names)
    (htext : e.text = some v) :
    factOfElem nsmap ctxs e = some (buildFact nsmap cref cd e t v) := by
  simp [factOfElem, htag, hcref, hcd, htext, hne, hskip]

/-- When the last context entry for an id is known, every fact referencing
that id copies its fields from that entry's data. -/
theorem parseDoc_fields_of_lastEntry {doc : XmlDoc} {i : String}
    {cd : ContextData} {f : FactRec}
    (hlast : ((contextEntries doc.root).filter
      (fun kv => decide (kv.1 = i))).getLast? = some (i, cd))
    (hf : f ∈ parseDoc doc) (hfi : f.context_id = i) :
    f.period_type = cd.period_type ∧ f.dimensions = cd.dimensions ∧
    f.date = (if cd.period_type = some "instant" then some cd.instant.join
      else none) ∧
    f.start_date = (if cd.period_type = some "instant" then none
      else some cd.start_date.join) ∧
    f.end_date = (if cd.period_type = some "instant" then none
      else some cd.end_date.join) := by
  obtain ⟨cd', hcd', h1, h2, h3, h4, h5, _⟩ := parseDoc_fields hf
  rw [hfi, dictLookup_extractContexts, hlast] at hcd'
  simp only [Option.map_some'] at hcd'
  injection hcd' with hc
  rw [← hc] at h1 h2 h3 h4 h5
  exact ⟨h1, h2, h3, h4, h5⟩

/-- Claim C6: when exactly two context entries share an id, the stored
context is the later one (last-write-wins, no error), and every fact
referencing that id copies the later entry's period and dimension fields. -/
theorem C6_duplicate_context_last_wins :
    ∀ (doc : XmlDoc) (i : String) (cd1 cd2 : ContextData),
      (contextEntries doc.root).filter (fun kv => decide (kv.1 = i))
          = [(i, cd1), (i, cd2)] →
      dictLookup (extractContexts doc.root) i = some cd2 ∧
      ∀ f ∈ parseDoc doc, f.context_id = i →
        f.period_type = cd2.period_type ∧ f.dimensions = cd2.dimensions ∧
        f.date = (if cd2.period_type = some "instant" then
          some cd2.instant.join else none) ∧
        f.start_date = (if cd2.period_type = some "instant" then none
          else some cd2.start_date.join) ∧
        f.end_date = (if cd2.period_type = some "instant" then none
          else some cd2.end_date.join) := by
  intro doc i cd1 cd2 hfil
  have hlast : ((contextEntries doc.root).filter
      (fun kv => decide (kv.1 = i))).getLast? = some (i, cd2) := by
    rw [hfil]
    rfl
  refine ⟨?_, ?_⟩
  · rw [dictLookup_extractContexts, hlast]
    rfl
  · intro f hf hfi
    exact parseDoc_fields_of_lastEntry hlast hf hfi

/-- Claim C6, witness: the theorem applied to `dupContextDoc`, whose two
`C1` contexts hold the instants `2023-01-01` and `2023-12-31`. -/
theorem C6_witness :
    dictLookup (extractContexts dupContextDoc.root) "C1"
        = some dupContextDataB ∧
    dupContextFact.period_type = dupContextDataB.period_type ∧
    dupContextFact.date = (if dupContextDataB.period_type = some "instant"
      then some dupContextDataB.instant.join else none) := by
  have h := C6_duplicate_context_last_wins dupContextDoc "C1" dupContextDataA
    dupContextDataB (by decide)
  exact ⟨h.1, (h.2 dupContextFact (by decide) rfl).1,
    (h.2 dupContextFact (by decide) rfl).2.2.1⟩

/-- Claim C8, counterexample: in `dupDimDoc` the first `explicitMember`
child satisfies all of the claim's conditions with dimension `Dim` and
member `M1`, yet the fact referencing the context carries
`dimensions[Dim] = M2` — the later duplicate overwrote the pair. -/
theorem C8_counterexample :
    segmentOf dupDimContext = some dupDimSegment ∧
    dupDimChildA ∈ dupDimSegment.children ∧
    dimEntryOf dupDimChildA = some ("Dim", "M1") ∧
    (parseDoc dupDimDoc).map (fun f => dictLookup f.dimensions "Dim")
      = [some "M2"] ∧
    (some "M2" : Option String) ≠ some "M1" :=
  ⟨rfl, List.mem_cons_self _ _, by decide, by decide, by decide⟩

/-- Claim C8, amended: among the segment's `explicitMember` children with
resolved dimension name `D` and non-empty member value, the LAST one's value
`M` is recorded, `dimensions[D] = M` holds on the stored context and on every
fact referencing it; and every recorded entry stems from a child carrying
both a dimension attribute and a non-empty member value. -/
theorem C8_dimension_last_wins :
    ∀ (doc : XmlDoc) (i D M : String) (ce seg : XmlNode) (cd : ContextData),
      contextEntryOf ce = some (i, cd) →
      segmentOf ce = some seg →
      ((seg.children.filterMap dimEntryOf).filter
          (fun kv => decide (kv.1 = D))).getLast? = some (D, M) →
      ((contextEntries doc.root).filter
          (fun kv => decide (kv.1 = i))).getLast? = some (i, cd) →
      dictLookup cd.dimensions D = some M ∧
      (∀ f ∈ parseDoc doc, f.context_id = i →
        dictLookup f.dimensions D = some M) ∧
      (∀ kv ∈ cd.dimensions, ∃ c ∈ seg.children, dimEntryOf c = some kv ∧
        kv.2 ≠ "" ∧ ∃ a, c.get "dimension" = some a ∧ stripNs a = kv.1) := by
  intro doc i D M ce seg cd hce hseg hdim hlast
  obtain ⟨t, htag, hln, hid, hine, hcd⟩ := contextEntryOf_some hce
  have hdims : cd.dimensions = dimsOfSeg seg := by
    rw [hcd]
    simp [contextDataOf, hseg]
  have hlook : dictLookup cd.dimensions D = some M := by
    rw [hdims, dictLookup_dimsOfSeg, hdim]
    rfl
  refine ⟨hlook, ?_, ?_⟩
  · intro f hf hfi
    have h2 := (parseDoc_fields_of_lastEntry hlast hf hfi).2.1
    rw [h2]
    exact hlook
  · intro kv hkv
    rw [hdims] at hkv
    obtain ⟨c, hcmem, hdc⟩ := mem_dimsOfSeg seg kv hkv
    obtain ⟨t', a, _, _, ha, hane, hk1, _, hk2ne⟩ := dimEntryOf_some hdc
    exact ⟨c, hcmem, hdc, hk2ne, a, ha, hk1.symm⟩

/-- Claim C8, witness: the amended theorem applied to `dupDimDoc`, where the
last `explicitMember` for `Dim` carries `M2`. -/
theorem C8_witness :
    dictLookup dupDimData.dimensions "Dim" = some "M2" ∧
    dictLookup dupDimFact.dimensions "Dim" = some "M2" := by
  have h := C8_dimension_last_wins dupDimDoc "C1" "Dim" "M2" dupDimContext
    dupDimSegment dupDimData (by decide) rfl (by decide) (by decide)
  exact ⟨h.1, h.2.1 dupDimFact (by decide) rfl⟩

/-- Claim C9: a context whose period has an instant child stores
`period_type = instant` and its facts carry a `date` field holding the
instant's stripped text; a context whose period has no instant child stores
`period_type = duration` and its facts carry `start_date` / `end_date`
fields holding the (possibly null) stripped texts of the last `startDate` /
`endDate` children. -/
theorem C9_period_resolution :
    ∀ (doc : XmlDoc) (i : String) (ce p : XmlNode) (cd : ContextData),
      contextEntryOf ce = some (i, cd) →
      ((contextEntries doc.root).filter
          (fun kv => decide (kv.1 = i))).getLast? = some (i, cd) →
      firstChildNamed ce "period" = some p →
      ((∀ inst, firstChildNamed p "instant" = some inst →
        cd.period_type = some "instant" ∧
        cd.instant = some (pyStripIfTruthy inst.text) ∧
        ∀ f ∈ parseDoc doc, f.context_id = i →
          f.period_type = some "instant" ∧
          f.date = some (pyStripIfTruthy inst.text) ∧
          f.start_date = none ∧ f.end_date = none) ∧
      (firstChildNamed p "instant" = none →
        cd.period_type = some "duration" ∧
        cd.start_date = some (pyTextOfOpt (lastChildNamed p "startDate")) ∧
        cd.end_date = some (pyTextOfOpt (lastChildNamed p "endDate")) ∧
        ∀ f ∈ parseDoc doc, f.context_id = i →
          f.period_type = some "duration" ∧ f.date = none ∧
          f.start_date = some (pyTextOfOpt (lastChildNamed p "startDate")) ∧
          f.end_date = some (pyTextOfOpt (lastChildNamed p "endDate")))) := by
  intro doc i ce p cd hce hlast hper
  obtain ⟨t, htag, hln, hid, hine, hcd⟩ := contextEntryOf_some hce
  constructor
  · intro inst hinst
    have h1 : cd.period_type = some "instant" := by
      rw [hcd]
      simp [contextDataOf, hper, hinst]
    have h2 : cd.instant = some (pyStripIfTruthy inst.text) := by
      rw [hcd]
      simp [contextDataOf, hper, hinst]
    have hif : ∀ (x y : Option (Option String)),
        (if (some "instant" : Option String) = some "instant" then x else y)
          = x := fun x y => if_pos rfl
    refine ⟨h1, h2, ?_⟩
    intro f hf hfi
    obtain ⟨hp', _, hdate, hsd, hed⟩ :=
      parseDoc_fields_of_lastEntry hlast hf hfi
    rw [h1] at hp' hdate hsd hed
    rw [hif] at hdate hsd hed
    rw [h2] at hdate
    exact ⟨hp', hdate, hsd, hed⟩
  · intro hinst
    have h1 : cd.period_type = some "duration" := by
      rw [hcd]
      simp [contextDataOf, hper, hinst]
    have h2 : cd.start_date = some (pyTextOfOpt (lastChildNamed p "startDate")) := by
      rw [hcd]
      simp [contextDataOf, hper, hinst]
    have h3 : cd.end_date = some (pyTextOfOpt (lastChildNamed p "endDate")) := by
      rw [hcd]
      simp [contextDataOf, hper, hinst]
    have hif : ∀ (x y : Option (Option String)),
        (if (some "duration" : Option String) = some "instant" then x else y)
          = y := fun x y => if_neg (by decide)
    refine ⟨h1, h2, h3, ?_⟩
    intro f hf hfi
    obtain ⟨hp', _, hdate, hsd, hed⟩ :=
      parseDoc_fields_of_lastEntry hlast hf hfi
    rw [h1] at hp' hdate hsd hed
    rw [hif] at hdate hsd hed
    rw [h2] at hsd
    rw [h3] at hed
    exact ⟨hp', hdate, hsd, hed⟩

/-- Claim C9, witness: the theorem applied to the end-to-end example's
instant context and its fact. -/
theorem C9_witness :
    exampleContextData.period_type = some "instant" ∧
    exampleContextData.instant = some (pyStripIfTruthy exampleInstant.text) ∧
    exampleFact.date = some (pyStripIfTruthy exampleInstant.text) ∧
    exampleFact.start_date = none := by
  have h := (C9_period_resolution exampleDoc "C1" exampleContext examplePeriod
    exampleContextData (by decide) (by decide) rfl).1 exampleInstant rfl
  have hf := h.2.2 exampleFact (by decide) rfl
  exact ⟨h.1, h.2.1, hf.2.1, hf.2.2.1⟩

/-- Claim C10: a context element without a `period` child stores
`period_type = None`; facts referencing it are still emitted, carrying
`start_date` and `end_date` fields that are both null and no `date` field. -/
theorem C10_missing_period :
    ∀ (doc : XmlDoc) (i : String) (ce : XmlNode) (cd : ContextData),
      contextEntryOf ce = some (i, cd) →
      ((contextEntries doc.root).filter
          (fun kv => decide (kv.1 = i))).getLast? = some (i, cd) →
      firstChildNamed ce "period" = none →
      cd.period_type = none ∧
      (∀ f ∈ parseDoc doc, f.context_id = i →
        f.period_type = none ∧ f.date = none ∧ f.start_date = some none ∧
        f.end_date = some none) ∧
      (∀ (e : XmlNode) (t v : String), e.tag = XTag.str t →
        e.get "contextRef" = some i →
        ¬ (resolvePrefixed doc.nsmap t).1 ∈ skip_names → e.text = some v →
        factOfElem doc.nsmap (extractContexts doc.root) e
          = some (buildFact doc.nsmap i cd e t v)) := by
  intro doc i ce cd hce hlast hper
  obtain ⟨t0, htag0, hln0, hid0, hine, hcd⟩ := contextEntryOf_some hce
  have h1 : cd.period_type = none := by
    rw [hcd]
    simp [contextDataOf, hper]
  have h2 : cd.start_date = none := by
    rw [hcd]
    simp [contextDataOf, hper]
  have h3 : cd.end_date = none := by
    rw [hcd]
    simp [contextDataOf, hper]
  have hlook : dictLookup (extractContexts doc.root) i = some cd := by
    rw [dictLookup_extractContexts, hlast]
    rfl
  have hif : ∀ (x y : Option (Option String)),
      (if (none : Option String) = some "instant" then x else y) = y :=
    fun x y => if_neg (by decide)
  refine ⟨h1, ?_, ?_⟩
  · intro f hf hfi
    obtain ⟨hp', _, hdate, hsd, hed⟩ :=
      parseDoc_fields_of_lastEntry hlast hf hfi
    rw [h1] at hp' hdate hsd hed
    rw [hif] at hdate hsd hed
    rw [h2] at hsd
    rw [h3] at hed
    exact ⟨hp', hdate, hsd, hed⟩
  · intro e t v htag hcref hskip htext
    exact factOfElem_emits htag hcref hine hlook hskip htext

/-- Claim C10, witness: the theorem applied to `noPeriodDoc`, whose context
has no period child, and its emitted fact. -/
theorem C10_witness :
    noPeriodData.period_type = none ∧
    noPeriodFact.period_type = none ∧ noPeriodFact.date = none ∧
    noPeriodFact.start_date = some none ∧ noPeriodFact.end_date = some none := by
  have h := C10_missing_period noPeriodDoc "C1" noPeriodContext noPeriodData
    (by decide) (by decide) rfl
  have hf := h.2.1 noPeriodFact (by decide) rfl
  exact ⟨h.1, hf.1, hf.2.1, hf.2.2.1, hf.2.2.2⟩
